import Mathlib

set_option maxRecDepth 16384

/-!
Verification development for the Nitro/filecache repository.

We give a shallow embedding of the cache core (download records, the
hashed-args digest, unique keys, the naming scheme, and the facade
operations Fetch / Reload / FetchNewerThan / MaybeDownload) together
with the decision logic of the two bundled downloaders, and prove or
refute the specification claims about them.

Go strings are modelled as Lean strings; hashing operates on their
UTF-8 bytes, as in Go.  Machine words are Nat with explicit reduction
mod 2 ^ 32.  Go maps are modelled as association lists with Go map
insertion semantics (later insert overwrites); the enumeration order
of a Go map range statement is an explicit parameter, since Go does
not fix it.
-/

namespace Filecache

/-- 2 ^ 32, the word modulus for the 32-bit hash arithmetic. -/
def m32 : Nat := 4294967296

/-- Rotate a 32-bit word left by s bits. -/
def rotl32 (x s : Nat) : Nat := ((x <<< s) ||| (x >>> (32 - s))) % m32

/-- The 64 MD5 sine-derived constants of RFC 1321. -/
def md5K : List Nat :=
  [0xd76aa478, 0xe8c7b756, 0x242070db, 0xc1bdceee,
   0xf57c0faf, 0x4787c62a, 0xa8304613, 0xfd469501,
   0x698098d8, 0x8b44f7af, 0xffff5bb1, 0x895cd7be,
   0x6b901122, 0xfd987193, 0xa679438e, 0x49b40821,
   0xf61e2562, 0xc040b340, 0x265e5a51, 0xe9b6c7aa,
   0xd62f105d, 0x02441453, 0xd8a1e681, 0xe7d3fbc8,
   0x21e1cde6, 0xc33707d6, 0xf4d50d87, 0x455a14ed,
   0xa9e3e905, 0xfcefa3f8, 0x676f02d9, 0x8d2a4c8a,
   0xfffa3942, 0x8771f681, 0x6d9d6122, 0xfde5380c,
   0xa4beea44, 0x4bdecfa9, 0xf6bb4b60, 0xbebfbc70,
   0x289b7ec6, 0xeaa127fa, 0xd4ef3085, 0x04881d05,
   0xd9d4d039, 0xe6db99e5, 0x1fa27cf8, 0xc4ac5665,
   0xf4292244, 0x432aff97, 0xab9423a7, 0xfc93a039,
   0x655b59c3, 0x8f0ccc92, 0xffeff47d, 0x85845dd1,
   0x6fa87e4f, 0xfe2ce6e0, 0xa3014314, 0x4e0811a1,
   0xf7537e82, 0xbd3af235, 0x2ad7d2bb, 0xeb86d391]

/-- The 64 MD5 per-round shift amounts. -/
def md5S : List Nat :=
  [7, 12, 17, 22, 7, 12, 17, 22, 7, 12, 17, 22, 7, 12, 17, 22,
   5, 9, 14, 20, 5, 9, 14, 20, 5, 9, 14, 20, 5, 9, 14, 20,
   4, 11, 16, 23, 4, 11, 16, 23, 4, 11, 16, 23, 4, 11, 16, 23,
   6, 10, 15, 21, 6, 10, 15, 21, 6, 10, 15, 21, 6, 10, 15, 21]

/-- The MD5 round function for round i on words b, c, d. -/
def md5F (i b c d : Nat) : Nat :=
  if i < 16 then (b &&& c) ||| (((m32 - 1) ^^^ b) &&& d)
  else if i < 32 then (d &&& b) ||| (((m32 - 1) ^^^ d) &&& c)
  else if i < 48 then b ^^^ c ^^^ d
  else c ^^^ (b ||| ((m32 - 1) ^^^ d))

/-- The MD5 message-word index for round i. -/
def md5G (i : Nat) : Nat :=
  if i < 16 then i
  else if i < 32 then (5 * i + 1) % 16
  else if i < 48 then (3 * i + 5) % 16
  else (7 * i) % 16

/-- Read a 32-bit little-endian word from the head of a byte list. -/
def le32 : List Nat → Nat
  | a :: b :: c :: d :: _ => a + 256 * b + 65536 * c + 16777216 * d
  | _ => 0

/-- The sixteen 32-bit little-endian words of a 64-byte chunk. -/
def chunkWords (chunk : List Nat) : List Nat :=
  (List.range 16).map (fun i => le32 (chunk.drop (4 * i)))

/-- One MD5 round: state (a, b, c, d) and round index i. -/
def md5Round (M : List Nat) (st : Nat × Nat × Nat × Nat) (i : Nat) :
    Nat × Nat × Nat × Nat :=
  let (a, b, c, d) := st
  let f := (md5F i b c d + a + md5K.getD i 0 + M.getD (md5G i) 0) % m32
  (d, (b + rotl32 f (md5S.getD i 0)) % m32, b, c)

/-- Process one 64-byte chunk of the padded message. -/
def md5Chunk (st : Nat × Nat × Nat × Nat) (chunk : List Nat) :
    Nat × Nat × Nat × Nat :=
  let M := chunkWords chunk
  let (a0, b0, c0, d0) := st
  let (a, b, c, d) := (List.range 64).foldl (md5Round M) st
  ((a0 + a) % m32, (b0 + b) % m32, (c0 + c) % m32, (d0 + d) % m32)

/-- RFC 1321 padding: append 0x80, zero bytes to 56 mod 64, then the
original bit length as a 64-bit little-endian quantity. -/
def md5Pad (msg : List Nat) : List Nat :=
  let len := msg.length
  let zeros := (120 - (len + 1) % 64) % 64
  let bitLen := (8 * len) % (2 ^ 64)
  msg ++ [0x80] ++ List.replicate zeros 0 ++
    (List.range 8).map (fun i => (bitLen >>> (8 * i)) % 256)

/-- Split a byte list into chunks of 64 bytes, with explicit fuel so the
recursion is structural and kernel-reducible. -/
def chunksOf64Aux : Nat → List Nat → List (List Nat)
  | 0, _ => []
  | _, [] => []
  | fuel + 1, l => l.take 64 :: chunksOf64Aux fuel (l.drop 64)

/-- Split a byte list into 64-byte chunks. -/
def chunksOf64 (l : List Nat) : List (List Nat) :=
  chunksOf64Aux (l.length + 1) l

/-- Serialise a 32-bit word to four little-endian bytes. -/
def wordLE (x : Nat) : List Nat :=
  [x % 256, (x >>> 8) % 256, (x >>> 16) % 256, (x >>> 24) % 256]

/-- The 16-byte MD5 digest of a byte string, per RFC 1321 (the
crypto/md5 package of the Go standard library). -/
def md5Bytes (msg : List Nat) : List Nat :=
  let st := (chunksOf64 (md5Pad msg)).foldl md5Chunk
    (0x67452301, 0xefcdab89, 0x98badcfe, 0x10325476)
  let (a, b, c, d) := st
  wordLE a ++ wordLE b ++ wordLE c ++ wordLE d

/-- Hex digit character for a nibble, lower case as produced by the Go
format verb for hex. -/
def hexDigit (n : Nat) : Char :=
  if n < 10 then Char.ofNat (48 + n) else Char.ofNat (87 + n)

/-- Two lower-case hex characters for one byte. -/
def hexByte (b : Nat) : List Char := [hexDigit (b / 16), hexDigit (b % 16)]

/-- Lower-case hex encoding of a byte list, as Go prints a byte slice
with the hex format verb. -/
def bytesToHex (bs : List Nat) : String :=
  String.mk (bs.foldr (fun b acc => hexByte b ++ acc) [])

/-- UTF-8 encoding of one code point, as Go strings store characters. -/
def utf8Bytes (c : Nat) : List Nat :=
  if c < 0x80 then [c]
  else if c < 0x800 then
    [0xC0 ||| (c >>> 6), 0x80 ||| (c &&& 0x3F)]
  else if c < 0x10000 then
    [0xE0 ||| (c >>> 12), 0x80 ||| ((c >>> 6) &&& 0x3F), 0x80 ||| (c &&& 0x3F)]
  else
    [0xF0 ||| (c >>> 18), 0x80 ||| ((c >>> 12) &&& 0x3F),
     0x80 ||| ((c >>> 6) &&& 0x3F), 0x80 ||| (c &&& 0x3F)]

/-- The UTF-8 bytes of a string: the byte content of a Go string. -/
def strBytes (s : String) : List Nat :=
  s.data.foldr (fun c acc => utf8Bytes c.toNat ++ acc) []

/-- Hex-encoded MD5 digest of a string, i.e. the Go expression
formatting md5.Sum of the string with the hex verb. -/
def md5hex (s : String) : String := bytesToHex (md5Bytes (strBytes s))

/-- FNV-1 32-bit hash of a string, as hash/fnv New32 computes it. -/
def fnv32 (s : String) : Nat :=
  (strBytes s).foldl (fun h b => ((h * 16777619) % m32) ^^^ b) 2166136261

/-- The shard directory name: the leading byte of the big-endian FNV32
sum, rendered as two hex characters. -/
def fnvShard (s : String) : String := String.mk (hexByte (fnv32 s >>> 24))

/-- Boolean prefix test on character lists, structurally recursive so
it reduces well both on literals and on open terms. -/
def isPreOf : List Char → List Char → Bool
  | [], _ => true
  | _ :: _, [] => false
  | p :: ps, c :: cs => p == c && isPreOf ps cs

/-- Drop of a character count from a string. -/
def strDrop (s : String) (n : Nat) : String := String.mk (s.data.drop n)

/-- ASCII lower-casing of a string, as Go strings.ToLower acts on the
ASCII argument names the cache handles. -/
def strToLower (s : String) : String := String.mk (s.data.map Char.toLower)

/-- Go strings.TrimPrefix: drop the leading occurrence of p when s
starts with it, otherwise return s unchanged. -/
def goTrimPre (s p : String) : String :=
  if isPreOf p.data s.data then strDrop s p.length else s

/-- Split a character list at every occurrence of sep, keeping empty
pieces, matching Go strings.Split with a one-character separator. -/
def splitOnChar (sep : Char) : List Char → List (List Char)
  | [] => [[]]
  | c :: cs =>
    let r := splitOnChar sep cs
    if c = sep then [] :: r
    else
      match r with
      | h :: t => (c :: h) :: t
      | [] => [[c]]

/-- Go strings.Split of a string on the slash separator. -/
def goSplitSlash (s : String) : List String :=
  (splitOnChar '/' s.data).map String.mk

/-- Go strings.Join with the slash separator. -/
def goJoinSlash : List String → String
  | [] => ""
  | [s] => s
  | s :: rest => s ++ "/" ++ goJoinSlash rest

/-- An argument map, in the enumeration order a Go map range statement
happens to yield; Go fixes no such order. -/
abbrev ArgsMap := List (String × String)

/-- Go map lookup. -/
def mapGet (m : ArgsMap) (k : String) : Option String :=
  match m.find? (fun p => p.1 == k) with
  | some p => some p.2
  | none => none

/-- Go map insert: overwrite the value when the key is present,
otherwise add the binding. -/
def mapPut (m : ArgsMap) (k v : String) : ArgsMap :=
  if m.any (fun p => p.1 == k) then
    m.map (fun p => if p.1 == k then (k, v) else p)
  else m ++ [(k, v)]

/-- The backend tag selecting a downloader. -/
inductive DownloadManager
  | s3
  | dropbox
deriving DecidableEq, Repr

/-- DownloadRecord from filecache.go: information about a file which
will be downloaded. -/
structure DownloadRecord where
  Manager : DownloadManager
  Path : String
  Args : ArgsMap
  HashedArgs : String
deriving DecidableEq, Repr

/-- getHashedArgs from filecache.go: the MD5 sum of the argument values
matching the HashableArgs set, concatenated in the order the range
statement enumerates that set (the hashable parameter), hex encoded;
empty when args is empty or no value was appended. -/
def getHashedArgs (hashable : List String) (args : ArgsMap) : String :=
  if args.length = 0 then ""
  else
    let s := hashable.foldl (fun b n =>
      match mapGet args n with
      | some v => b ++ v
      | none => b) ""
    if s = "" then "" else md5hex s

/-- GetUniqueName from filecache.go: Path joined to HashedArgs by an
underscore when Args is non-empty, Path alone otherwise. -/
def GetUniqueName (dr : DownloadRecord) : String :=
  if dr.Args.length > 0 then dr.Path ++ "_" ++ dr.HashedArgs else dr.Path

/-- bucketToDownloadManager from filecache.go. -/
def bucketToDownloadManager (bucket : String) : DownloadManager :=
  if bucket = "dropbox" then DownloadManager.dropbox else DownloadManager.s3

/-- NewDownloadRecord from filecache.go: strip the documents root, split
on slashes, require at least two parts and a non-trivial rejoined path,
keep only lower-cased allow-listed args, and fill in the digest.  The
hashable parameter is the allow-list together with its enumeration
order; the args list order stands for the enumeration order of the
incoming Go map.  The none result is the invalid URL path error. -/
def NewDownloadRecord (hashable : List String) (url : String) (args : ArgsMap) :
    Option DownloadRecord :=
  let pathParts := goSplitSlash (goTrimPre url "/documents/")
  if pathParts.length < 2 then none
  else
    let path := goJoinSlash pathParts
    if path = "" ∨ path = "/" then none
    else
      let normalisedArgs := args.foldl (fun acc kv =>
        let normalisedArg := strToLower kv.1
        if hashable.contains normalisedArg then mapPut acc normalisedArg kv.2
        else acc) []
      some {
        Manager := bucketToDownloadManager (pathParts.headD "")
        Path := path
        Args := normalisedArgs
        HashedArgs := getHashedArgs hashable normalisedArgs
      }

/-- Stack-machine processing of path segments for Go path.Clean:
empty and dot segments vanish, dot-dot pops a previous segment when
one exists, stays when the path is not rooted and nothing can be
popped, and vanishes at the root. -/
def cleanSegs (rooted : Bool) : List String → List String → List String
  | stack, [] => stack
  | stack, seg :: rest =>
    if seg = "" ∨ seg = "." then cleanSegs rooted stack rest
    else if seg = ".." then
      match stack.getLast? with
      | some l =>
        if l ≠ ".." then cleanSegs rooted stack.dropLast rest
        else cleanSegs rooted (stack ++ [".."]) rest
      | none =>
        if rooted then cleanSegs rooted stack rest
        else cleanSegs rooted (stack ++ [".."]) rest
    else cleanSegs rooted (stack ++ [seg]) rest

/-- Go path.Clean (lexical shortest equivalent path). -/
def goPathClean (p : String) : String :=
  if p = "" then "."
  else
    let rooted := p.data.headD 'a' == '/' 
    let segs := cleanSegs rooted [] (goSplitSlash p)
    let out := (if rooted then "/" else "") ++ goJoinSlash segs
    if out = "" then "." else out

/-- Go filepath.Join of three elements on a slash-separated filesystem:
join the elements from the first non-empty one and clean the result. -/
def goFilepathJoin3 (a b c : String) : String :=
  if a ≠ "" then goPathClean (a ++ "/" ++ b ++ "/" ++ c)
  else if b ≠ "" then goPathClean (b ++ "/" ++ c)
  else if c ≠ "" then goPathClean c
  else ""

/-- Index of the last occurrence of a character in a list, as an
integer, with -1 when absent: Go strings.LastIndexByte.  Characters
stand for bytes; on ASCII paths the two indexings agree. -/
def lastIndexCharAux (c : Char) : List Char → Int
  | [] => -1
  | x :: xs =>
    let r := lastIndexCharAux c xs
    if r ≥ 0 then r + 1
    else if x = c then 0 else -1

/-- Go strings.LastIndexByte over a string. -/
def lastIndexChar (s : String) (c : Char) : Int :=
  lastIndexCharAux c s.data

/-- The configuration of a FileCache that the naming scheme reads. -/
structure FileCacheConfig where
  BaseDir : String
  DefaultExtension : String
deriving DecidableEq, Repr

/-- The filename assembly and final join of GetFileName: the MD5 hex
name, the underscore-joined hashed args when Args is non-empty, the
extension, and the join of base dir, shard dir and cleaned filename. -/
def mkCachePath (c : FileCacheConfig) (dir hashedFilename : String)
    (dr : DownloadRecord) (extension : String) : String :=
  let fileName :=
    if dr.Args.length ≠ 0 then hashedFilename ++ "_" ++ dr.HashedArgs ++ extension
    else hashedFilename ++ extension
  goFilepathJoin3 c.BaseDir dir (goPathClean ("/" ++ fileName))

/-- GetFileName from filecache.go: the storage path for a record.  The
extension logic looks for the last dot and keeps the suffix when that
dot falls within the last five characters, otherwise the configured
default extension is used.  When the path has no dot at all and is
shorter than five characters, the source slices the path from index
-1, a runtime panic, modelled as none. -/
def GetFileName (c : FileCacheConfig) (dr : DownloadRecord) : Option String :=
  let hashedFilename := md5hex dr.Path
  let dir := fnvShard dr.Path
  let lastDot := lastIndexChar dr.Path '.'
  if lastDot > (dr.Path.length : Int) - 6 then
    if lastDot < 0 then none
    else some (mkCachePath c dir hashedFilename dr (strDrop dr.Path lastDot.toNat))
  else some (mkCachePath c dir hashedFilename dr c.DefaultExtension)

/-- Events of the single-flight coordinator that the claims observe:
an invocation of DownloadFunc, the close of a wait channel, and the
deletion of a Waiting map entry. -/
inductive CoordEv
  | fetchCall (key : String)
  | closeHandle (key : String)
  | deleteHandle (key : String)
deriving DecidableEq, Repr

/-- The dynamic state of a FileCache for the sequential facade model:
the LRU index as a map from unique key to stored path (capacity and
recency order are not needed by the claims below), the modification
times of files on disk as seen by times.Stat, the Waiting Set, and a
trace of coordinator events.  DownloadFunc is abstracted by a boolean
outcome parameter; its filesystem effects are not modelled. -/
structure CacheState where
  index : String → Option String
  files : String → Option Int
  waiting : String → Bool
  events : List CoordEv

/-- Contains from filecache.go: the LRU cache holds the unique name. -/
def Contains (st : CacheState) (dr : DownloadRecord) : Bool :=
  (st.index (GetUniqueName dr)).isSome

/-- Cache.Remove on the LRU index, which fires onEvictDelete and so
removes the stored file from disk. -/
def cacheRemove (st : CacheState) (key : String) : CacheState :=
  match st.index key with
  | some storagePath =>
    { st with
      index := fun k => if k = key then none else st.index k
      files := fun p => if p = storagePath then none else st.files p }
  | none => st

/-- Cache.Add on the LRU index. -/
def cacheAdd (st : CacheState) (key storagePath : String) : CacheState :=
  { st with index := fun k => if k = key then some storagePath else st.index k }

/-- The deferred cleanup block of MaybeDownload: close the wait channel
(releasing every blocked waiter), then delete the key from the Waiting
map, in source order, all under one hold of WaitLock. -/
def finalStep (st : CacheState) (key : String) : CacheState :=
  { st with
    waiting := fun k => if k = key then false else st.waiting k
    events := st.events ++ [CoordEv.closeHandle key, CoordEv.deleteHandle key] }

/-- MaybeDownload from filecache.go, from the point of view of one
caller: join an existing wait handle and return nil, or return nil when
the index already has the key, or own the fetch: register a handle,
resolve the storage path, invoke DownloadFunc (outcome fetchOk), add
the key on success, and run the deferred cleanup either way.  The none
result is the GetFileName panic propagating. -/
def MaybeDownload (cfg : FileCacheConfig) (fetchOk : Bool) (st : CacheState)
    (dr : DownloadRecord) : Option (Bool × CacheState) :=
  let key := GetUniqueName dr
  if st.waiting key then
    some (true, st)
  else if Contains st dr then
    some (true, st)
  else
    let st1 := { st with waiting := fun k => if k = key then true else st.waiting k }
    match GetFileName cfg dr with
    | none => none
    | some storagePath =>
      let st2 := { st1 with events := st1.events ++ [CoordEv.fetchCall key] }
      if fetchOk then
        some (true, finalStep (cacheAdd st2 key storagePath) key)
      else
        some (false, finalStep st2 key)

/-- Fetch from filecache.go: true when present, otherwise the success
of MaybeDownload. -/
def Fetch (cfg : FileCacheConfig) (fetchOk : Bool) (st : CacheState)
    (dr : DownloadRecord) : Option (Bool × CacheState) :=
  if Contains st dr then some (true, st)
  else MaybeDownload cfg fetchOk st dr

/-- Reload from filecache.go: remove the unique name from the cache,
then MaybeDownload. -/
def Reload (cfg : FileCacheConfig) (fetchOk : Bool) (st : CacheState)
    (dr : DownloadRecord) : Option (Bool × CacheState) :=
  MaybeDownload cfg fetchOk (cacheRemove st (GetUniqueName dr)) dr

/-- FetchNewerThan from filecache.go: Fetch when absent or when the
stat fails; return true when the record is still present and the
timestamp is strictly before the modification time; Reload otherwise. -/
def FetchNewerThan (cfg : FileCacheConfig) (fetchOk : Bool) (st : CacheState)
    (dr : DownloadRecord) (timestamp : Int) : Option (Bool × CacheState) :=
  if ¬ Contains st dr then Fetch cfg fetchOk st dr
  else
    match GetFileName cfg dr with
    | none => none
    | some storagePath =>
      match st.files storagePath with
      | none => Fetch cfg fetchOk st dr
      | some mtime =>
        if Contains st dr ∧ timestamp < mtime then some (true, st)
        else Reload cfg fetchOk st dr

/-- Outcome of a backend transfer call as the downloader wrapper sees
it: an error, or normal completion after writing numBytes bytes into
the local file. -/
inductive TransferResult
  | err (msg : String)
  | ok (numBytes : Int)
deriving DecidableEq, Repr

namespace S3RegionManagedDownloader

/-- The decision logic of S3RegionManagedDownloader.Download from
s3.go: split the bucket off the path, obtain a region downloader
(abstracted by getDownloaderOk), run DownloadWithContext, and reject a
zero-length result. -/
def Download (dr : DownloadRecord) (getDownloaderOk : Bool)
    (transfer : TransferResult) : Except String Unit :=
  let parts := goSplitSlash dr.Path
  if parts.length < 2 then
    Except.error "Not enough path to fetch a file"
  else if ¬ getDownloaderOk then
    Except.error "Unable to get downloader"
  else
    match transfer with
    | TransferResult.err m => Except.error ("Could not fetch from S3: " ++ m)
    | TransferResult.ok numBytes =>
      if numBytes < 1 then Except.error "0 length file received from S3"
      else Except.ok ()

end S3RegionManagedDownloader

/-- The decision logic of DropboxDownload from dropbox.go: require the
access token argument and the dropbox path root, run dbx.Download
(abstracted by downloadErr), copy the content into the local file
(copyResult carries the io.Copy outcome), and return nil: the byte
count is logged but never checked. -/
def DropboxDownload (dr : DownloadRecord) (downloadErr : Option String)
    (copyResult : TransferResult) : Except String Unit :=
  let accessToken := (mapGet dr.Args "dropboxaccesstoken").getD ""
  if accessToken = "" then Except.error "missing DropboxAccessToken header"
  else if ¬ isPreOf "dropbox/".data dr.Path.data then
    Except.error "missing dropbox prefix in file path"
  else
    match downloadErr with
    | some m => Except.error ("could not download file: " ++ m)
    | none =>
      match copyResult with
      | TransferResult.err m => Except.error ("failed to write local file: " ++ m)
      | TransferResult.ok _ => Except.ok ()

/-! Helper lemmas about the string and list plumbing. -/

theorem strAppend_empty (s : String) : s ++ "" = s := by
  apply String.ext
  rw [String.data_append]
  exact List.append_nil s.data

theorem strEmpty_append (s : String) : "" ++ s = s := by
  apply String.ext
  rw [String.data_append]
  rfl

/-- Concatenation of a list of strings in order. -/
def joinAll : List String → String
  | [] => ""
  | v :: rest => v ++ joinAll rest

/-- The builder loop of getHashedArgs concatenates exactly the matched
values, in enumeration order. -/
theorem hashFold_eq (args : ArgsMap) (l : List String) (b : String) :
    l.foldl (fun acc n =>
      match mapGet args n with
      | some v => acc ++ v
      | none => acc) b = b ++ joinAll (l.filterMap (mapGet args)) := by
  induction l generalizing b with
  | nil => simp [joinAll, strAppend_empty]
  | cons n rest ih =>
    simp only [List.foldl_cons, List.filterMap_cons]
    cases h : mapGet args n with
    | none => simp only [h]; exact ih b
    | some v => simp only [h, joinAll, ih, String.append_assoc]

theorem splitOnChar_ne_nil (sep : Char) (l : List Char) : splitOnChar sep l ≠ [] := by
  cases l with
  | nil => simp [splitOnChar]
  | cons c cs =>
    simp only [splitOnChar]
    split
    · simp
    · split <;> simp

/-- Joining character chunks with a separator character. -/
def joinWithSep (sep : Char) : List (List Char) → List Char
  | [] => []
  | [l] => l
  | l :: rest => l ++ sep :: joinWithSep sep rest

theorem joinWithSep_splitOnChar (sep : Char) (l : List Char) :
    joinWithSep sep (splitOnChar sep l) = l := by
  induction l with
  | nil => rfl
  | cons c cs ih =>
    simp only [splitOnChar]
    rcases h : splitOnChar sep cs with _ | ⟨h1, t⟩
    · exact absurd h (splitOnChar_ne_nil sep cs)
    · rw [h] at ih
      by_cases hc : c = sep
      · subst hc
        simp only [if_pos rfl, joinWithSep, List.nil_append]
        rw [ih]
      · simp only [if_neg hc]
        rcases t with _ | ⟨t1, t2⟩
        · simpa [joinWithSep] using ih
        · simp only [joinWithSep] at ih ⊢
          simp [ih]

theorem two_le_splitOnChar_length_iff (sep : Char) (l : List Char) :
    2 ≤ (splitOnChar sep l).length ↔ sep ∈ l := by
  induction l with
  | nil => simp [splitOnChar]
  | cons c cs ih =>
    simp only [splitOnChar]
    rcases h : splitOnChar sep cs with _ | ⟨h1, t⟩
    · exact absurd h (splitOnChar_ne_nil sep cs)
    · rw [h] at ih
      by_cases hc : c = sep
      · subst hc
        simp [h]
      · simp only [if_neg hc, List.length_cons, List.mem_cons]
        constructor
        · intro hlen
          exact Or.inr (ih.mp (by simpa using hlen))
        · intro hm
          rcases hm with hm | hm
          · exact absurd hm.symm hc
          · simpa using ih.mpr hm

/-- The join of the slash split recovers the original string: Go
strings.Join inverts strings.Split. -/
theorem goJoinSlash_goSplitSlash (s : String) : goJoinSlash (goSplitSlash s) = s := by
  have key : ∀ chunks : List (List Char),
      goJoinSlash (chunks.map String.mk) = String.mk (joinWithSep '/' chunks) := by
    intro chunks
    induction chunks with
    | nil => rfl
    | cons l rest ih =>
      rcases rest with _ | ⟨r1, r2⟩
      · rfl
      · simp only [List.map_cons, goJoinSlash, joinWithSep] at ih ⊢
        rw [ih]
        apply String.ext
        simp [String.data_append]
  unfold goSplitSlash
  rw [key, joinWithSep_splitOnChar]

/-- Inversion for a successful NewDownloadRecord: the fields of the
returned record in terms of the inputs. -/
theorem NewDownloadRecord_some (hashable : List String) (url : String) (args : ArgsMap)
    (dr : DownloadRecord) (h : NewDownloadRecord hashable url args = some dr) :
    dr.Path = goTrimPre url "/documents/" ∧
    dr.Args = args.foldl (fun acc kv =>
      if hashable.contains (strToLower kv.1) then mapPut acc (strToLower kv.1) kv.2
      else acc) [] ∧
    dr.HashedArgs = getHashedArgs hashable dr.Args := by
  simp only [NewDownloadRecord] at h
  split at h
  · exact absurd h (by simp)
  · split at h
    · exact absurd h (by simp)
    · injection h with h
      subst h
      refine ⟨?_, rfl, rfl⟩
      exact goJoinSlash_goSplitSlash (goTrimPre url "/documents/")

/-- Concrete material reused by the facade claims below. -/
def sampleRecord : DownloadRecord :=
  { Manager := DownloadManager.s3, Path := "bucket/f.pdf", Args := [], HashedArgs := "" }

def sampleCfg : FileCacheConfig := { BaseDir := "base", DefaultExtension := "" }

def samplePath : String := "base/a5/84fe9d267e8d07f2b3deb84fd6f8be6d.pdf"

/-- A state whose index holds the sample record at its stored path and
where every stat reports modification time zero. -/
def sampleState : CacheState :=
  { index := fun k => if k = "bucket/f.pdf" then some "stored" else none
    files := fun _ => some 0
    waiting := fun _ => false
    events := [] }

/-- A state with an empty index, empty Waiting Set and no files. -/
def emptyState : CacheState :=
  { index := fun _ => none
    files := fun _ => none
    waiting := fun _ => false
    events := [] }

/-- A state where the sample key already has a wait handle. -/
def waitingState : CacheState :=
  { index := fun _ => none
    files := fun _ => none
    waiting := fun k => k == "bucket/f.pdf"
    events := [] }

end Filecache

namespace Filecache

/-! Claim C1: key differentiation. -/

/-- C1 counterexample: two records built from the same path with
different allow-listed argument values (names a and b allow-listed,
values xy, z versus x, yz) receive the same unique key, because the
matched values are concatenated without any separator before hashing,
so the concatenations coincide.  This refutes the claim that records
with the same path but different matched values never collapse to one
key. -/
theorem C1_counterexample :
    (NewDownloadRecord ["a", "b"] "/documents/bucket/file.pdf"
        [("a", "xy"), ("b", "z")]).map (fun dr => dr.Path) =
      (NewDownloadRecord ["a", "b"] "/documents/bucket/file.pdf"
        [("a", "x"), ("b", "yz")]).map (fun dr => dr.Path) ∧
    (NewDownloadRecord ["a", "b"] "/documents/bucket/file.pdf"
        [("a", "xy"), ("b", "z")]).map (fun dr => dr.Args) ≠
      (NewDownloadRecord ["a", "b"] "/documents/bucket/file.pdf"
        [("a", "x"), ("b", "yz")]).map (fun dr => dr.Args) ∧
    (NewDownloadRecord ["a", "b"] "/documents/bucket/file.pdf"
        [("a", "xy"), ("b", "z")]).map GetUniqueName =
      (NewDownloadRecord ["a", "b"] "/documents/bucket/file.pdf"
        [("a", "x"), ("b", "yz")]).map GetUniqueName :=
  ⟨by decide, by decide, by decide⟩

/-- C1 amended: records constructed from the same raw identifier under
the same allow-list enumeration order have the same path; identical
normalised argument maps give identical unique keys; a record with no
matched arguments and one with matched arguments never share a key.
Distinct matched values, however, may collapse to one key when their
ordered concatenations coincide (see the counterexample). -/
theorem C1_thm (hashable : List String) (url : String) (args1 args2 : ArgsMap)
    (dr1 dr2 : DownloadRecord)
    (h1 : NewDownloadRecord hashable url args1 = some dr1)
    (h2 : NewDownloadRecord hashable url args2 = some dr2) :
    dr1.Path = dr2.Path ∧
    (dr1.Args = dr2.Args → GetUniqueName dr1 = GetUniqueName dr2) ∧
    (dr1.Args = [] → dr2.Args ≠ [] → GetUniqueName dr1 ≠ GetUniqueName dr2) := by
  obtain ⟨p1, a1, d1⟩ := NewDownloadRecord_some hashable url args1 dr1 h1
  obtain ⟨p2, a2, d2⟩ := NewDownloadRecord_some hashable url args2 dr2 h2
  have hpath : dr1.Path = dr2.Path := p1.trans p2.symm
  refine ⟨hpath, ?_, ?_⟩
  · intro hargs
    unfold GetUniqueName
    rw [hpath, hargs, d1, d2, hargs]
  · intro e1 ne2
    have hpos : 0 < dr2.Args.length := List.length_pos.mpr ne2
    unfold GetUniqueName
    rw [e1]
    simp only [List.length_nil, gt_iff_lt, lt_self_iff_false, if_false, if_pos hpos]
    intro hEq
    have hL := congrArg String.length hEq
    rw [hpath, String.length_append, String.length_append] at hL
    have hu : ("_" : String).length = 1 := rfl
    rw [hu] at hL
    omega

/-- C1 witness: concrete application of the amended theorem, showing a
record without matched arguments and one with a matched argument get
different keys. -/
theorem C1_witness :
    GetUniqueName { Manager := DownloadManager.s3, Path := "b/f.pdf",
                    Args := [], HashedArgs := "" } ≠
      GetUniqueName { Manager := DownloadManager.s3, Path := "b/f.pdf",
                      Args := [("a", "v")], HashedArgs := md5hex "v" } :=
  (C1_thm ["a"] "/documents/b/f.pdf" [("x", "v")] [("a", "v")]
    { Manager := DownloadManager.s3, Path := "b/f.pdf", Args := [], HashedArgs := "" }
    { Manager := DownloadManager.s3, Path := "b/f.pdf", Args := [("a", "v")],
      HashedArgs := md5hex "v" }
    (by decide) (by decide)).2.2 rfl (by decide)

/-! Claim C2: determinism of the args digest. -/

/-- C2 counterexample: the allow-list is a Go map, whose range order is
not fixed; enumerating the same two-name allow-list in the two possible
orders over the same argument map yields different digests, refuting
determinism across runs. -/
theorem C2_counterexample :
    List.Perm ["a", "b"] ["b", "a"] ∧
    getHashedArgs ["a", "b"] [("a", "x"), ("b", "y")] ≠
      getHashedArgs ["b", "a"] [("a", "x"), ("b", "y")] :=
  ⟨by decide, by decide⟩

/-- C2 amended: the digest is deterministic across allow-list
enumeration orders whenever at most one allow-listed name matches the
supplied arguments (in particular whenever the allow-list is a
singleton, the only configuration the repository uses); with two or
more matched names it depends on the enumeration order. -/
theorem C2_thm (order1 order2 : List String) (args : ArgsMap)
    (hperm : order1.Perm order2)
    (hone : (order1.filterMap (mapGet args)).length ≤ 1) :
    getHashedArgs order1 args = getHashedArgs order2 args := by
  have hp := hperm.filterMap (mapGet args)
  have heq : order1.filterMap (mapGet args) = order2.filterMap (mapGet args) := by
    rcases hl : order1.filterMap (mapGet args) with _ | ⟨v, rest⟩
    · rw [hl] at hp
      exact (hp.symm.eq_nil).symm
    · rw [hl] at hp hone
      rcases rest with _ | ⟨r1, r2⟩
      · exact (List.perm_singleton.mp hp.symm).symm
      · simp at hone
  unfold getHashedArgs
  rw [hashFold_eq, hashFold_eq, heq]

/-- C2 witness: concrete application of the amended theorem with a
single matched name under the two possible enumeration orders. -/
theorem C2_witness :
    getHashedArgs ["a", "b"] [("a", "x")] = getHashedArgs ["b", "a"] [("a", "x")] :=
  C2_thm ["a", "b"] ["b", "a"] [("a", "x")] (by decide) (by decide)

/-! Claim C3: extension handling of the naming scheme. -/

/-- C3: evaluation at the failing input.  The record for path a/b is
constructible, the path contains no dot, and GetFileName does not
produce a name ending in the configured default extension: the source
computes lastDot = -1, the guard lastDot greater than len minus 6
succeeds because the path is shorter than five characters, and the
slice of the path from index -1 panics at run time (modelled none). -/
theorem C3_thm :
    NewDownloadRecord [] "/documents/a/b" [] =
      some { Manager := DownloadManager.s3, Path := "a/b", Args := [],
             HashedArgs := "" } ∧
    lastIndexChar "a/b" '.' = -1 ∧
    GetFileName { BaseDir := ".", DefaultExtension := ".bin" }
      { Manager := DownloadManager.s3, Path := "a/b", Args := [],
        HashedArgs := "" } = none :=
  ⟨by decide, by decide, by decide⟩


/-! Claim C4: freshness dispatch of FetchNewerThan. -/

/-- C4 counterexample: a cached record whose file stats successfully
with modification time equal to the threshold (at the threshold, hence
at or after it) is reloaded and the fetcher runs, because the source
compares with timestamp.Before, a strict inequality.  The trace shows
the DownloadFunc invocation. -/
theorem C4_counterexample :
    Contains sampleState sampleRecord = true ∧
    (GetFileName sampleCfg sampleRecord).map sampleState.files = some (some 0) ∧
    (FetchNewerThan sampleCfg true sampleState sampleRecord 0).map
        (fun r => r.2.events) =
      some [CoordEv.fetchCall "bucket/f.pdf", CoordEv.closeHandle "bucket/f.pdf",
            CoordEv.deleteHandle "bucket/f.pdf"] :=
  ⟨by decide, by decide, by decide⟩

/-- C4 amended: for a cached record whose file stats successfully, a
modification time strictly after the threshold returns true with the
state unchanged (hence no fetcher invocation); a modification time at
or before the threshold behaves exactly like Reload. -/
theorem C4_thm (cfg : FileCacheConfig) (fetchOk : Bool) (st : CacheState)
    (dr : DownloadRecord) (timestamp : Int) (p : String) (m : Int)
    (hc : Contains st dr = true) (hp : GetFileName cfg dr = some p)
    (hm : st.files p = some m) :
    (timestamp < m → FetchNewerThan cfg fetchOk st dr timestamp = some (true, st)) ∧
    (m ≤ timestamp → FetchNewerThan cfg fetchOk st dr timestamp =
      Reload cfg fetchOk st dr) := by
  unfold FetchNewerThan
  rw [hp]
  simp only [hc, hm, not_true, if_false]
  constructor
  · intro h
    simp [h]
  · intro h
    simp [not_lt.mpr h]

/-- C4 witness: concrete application of the amended theorem at a
threshold strictly before the stat time. -/
theorem C4_witness :
    FetchNewerThan sampleCfg true sampleState sampleRecord (-1) =
      some (true, sampleState) :=
  (C4_thm sampleCfg true sampleState sampleRecord (-1) samplePath 0
    (by decide) (by decide) (by decide)).1 (by decide)

/-! Claim C5: no stuck waiters. -/

/-- Reduction of MaybeDownload in the owning case: no handle present,
key absent from the index, storage path resolved. -/
theorem MaybeDownload_owning (cfg : FileCacheConfig) (fetchOk : Bool)
    (st : CacheState) (dr : DownloadRecord) (p : String)
    (hw : st.waiting (GetUniqueName dr) = false)
    (hcon : Contains st dr = false)
    (hg : GetFileName cfg dr = some p) :
    MaybeDownload cfg fetchOk st dr = some (fetchOk,
      finalStep
        (if fetchOk then
          cacheAdd
            { st with
              waiting := fun k => if k = GetUniqueName dr then true else st.waiting k
              events := st.events ++ [CoordEv.fetchCall (GetUniqueName dr)] }
            (GetUniqueName dr) p
        else
          { st with
            waiting := fun k => if k = GetUniqueName dr then true else st.waiting k
            events := st.events ++ [CoordEv.fetchCall (GetUniqueName dr)] })
        (GetUniqueName dr)) := by
  unfold MaybeDownload
  rw [hg]
  simp only [hw, hcon, Bool.false_eq_true, if_false]
  cases fetchOk <;> simp

/-- The cleanup block clears the key from the Waiting Set. -/
theorem finalStep_waiting_self (st : CacheState) (key : String) :
    (finalStep st key).waiting key = false := by
  simp [finalStep]

/-- C5: when a caller that does not join an existing handle resolves,
success or failure, the Waiting Set no longer holds its key, and a
subsequent call for the same key (when the key is still absent from
the index) performs a fresh DownloadFunc invocation rather than
joining a stale handle. -/
theorem C5_thm (cfg : FileCacheConfig) (fetchOk fetchOk2 : Bool)
    (st : CacheState) (dr : DownloadRecord) (p : String)
    (hw : st.waiting (GetUniqueName dr) = false)
    (hg : GetFileName cfg dr = some p) :
    ∃ r, MaybeDownload cfg fetchOk st dr = some r ∧
      r.2.waiting (GetUniqueName dr) = false ∧
      (Contains r.2 dr = false →
        ∃ r2, MaybeDownload cfg fetchOk2 r.2 dr = some r2 ∧
          r2.2.events = r.2.events ++
            [CoordEv.fetchCall (GetUniqueName dr),
             CoordEv.closeHandle (GetUniqueName dr),
             CoordEv.deleteHandle (GetUniqueName dr)]) := by
  by_cases hcon : Contains st dr
  · refine ⟨(true, st), ?_, hw, ?_⟩
    · unfold MaybeDownload
      simp [hw, hcon]
    · intro hfalse
      rw [hcon] at hfalse
      exact absurd hfalse (by simp)
  · simp only [Bool.not_eq_true] at hcon
    have h1 := MaybeDownload_owning cfg fetchOk st dr p hw hcon hg
    refine ⟨_, h1, finalStep_waiting_self _ _, ?_⟩
    intro hnc
    have h2 := MaybeDownload_owning cfg fetchOk2 _ dr p
      (finalStep_waiting_self _ _) hnc hg
    refine ⟨_, h2, ?_⟩
    cases fetchOk2 <;> simp [finalStep, cacheAdd]

/-- C5 witness: concrete application with a failing fetch followed by a
fresh attempt. -/
theorem C5_witness :
    ∃ r, MaybeDownload sampleCfg false emptyState sampleRecord = some r ∧
      r.2.waiting (GetUniqueName sampleRecord) = false ∧
      (Contains r.2 sampleRecord = false →
        ∃ r2, MaybeDownload sampleCfg true r.2 sampleRecord = some r2 ∧
          r2.2.events = r.2.events ++
            [CoordEv.fetchCall (GetUniqueName sampleRecord),
             CoordEv.closeHandle (GetUniqueName sampleRecord),
             CoordEv.deleteHandle (GetUniqueName sampleRecord)]) :=
  C5_thm sampleCfg false true emptyState sampleRecord samplePath
    (by decide) (by decide)

/-! Claim C6: order of the final cleanup step. -/

/-- C6 counterexample: in an owning run of MaybeDownload the deferred
cleanup closes the wait channel, releasing the blocked waiters, before
deleting the Waiting map entry: the observed trace is close before
delete, not the removal-first order the claim states. -/
theorem C6_counterexample :
    (MaybeDownload sampleCfg true emptyState sampleRecord).map
        (fun r => r.2.events) =
      some [CoordEv.fetchCall "bucket/f.pdf", CoordEv.closeHandle "bucket/f.pdf",
            CoordEv.deleteHandle "bucket/f.pdf"] ∧
    ([CoordEv.fetchCall "bucket/f.pdf", CoordEv.closeHandle "bucket/f.pdf",
      CoordEv.deleteHandle "bucket/f.pdf"] : List CoordEv) ≠
      [CoordEv.fetchCall "bucket/f.pdf", CoordEv.deleteHandle "bucket/f.pdf",
       CoordEv.closeHandle "bucket/f.pdf"] :=
  ⟨by decide, by decide⟩

/-- C6 amended: the final step of an owning MaybeDownload releases the
blocked waiters first (channel close) and removes the wait handle
second, both appended under the same WaitLock hold, after which the
handle is gone from the Waiting Set. -/
theorem C6_thm (st : CacheState) (key : String) :
    (finalStep st key).events =
      st.events ++ [CoordEv.closeHandle key, CoordEv.deleteHandle key] ∧
    (finalStep st key).waiting key = false := by
  constructor
  · rfl
  · simp [finalStep]

/-! Claim C7: waiters return success unconditionally. -/

/-- C7: a caller that finds an existing wait handle for its key blocks
and then returns success with the state unchanged, for every fetch
outcome and every index content: it neither re-inspects the index nor
receives the owning fetch error. -/
theorem C7_thm (cfg : FileCacheConfig) (fetchOk : Bool) (st : CacheState)
    (dr : DownloadRecord) (hw : st.waiting (GetUniqueName dr) = true) :
    MaybeDownload cfg fetchOk st dr = some (true, st) := by
  unfold MaybeDownload
  simp [hw]

/-- C7 witness: concrete application on a state holding a handle for
the sample key. -/
theorem C7_witness :
    MaybeDownload sampleCfg false waitingState sampleRecord =
      some (true, waitingState) :=
  C7_thm sampleCfg false waitingState sampleRecord (by decide)


/-! Claim C8: shape of the unique key. -/

/-- C8 counterexample: a record constructed with one allow-listed
argument whose value is empty has an empty args digest (the builder
stays empty so getHashedArgs returns the empty string), yet its unique
key is the path with a trailing separator, because GetUniqueName tests
the argument map rather than the digest.  This refutes the claim that
an empty digest always gives the bare path as the key. -/
theorem C8_counterexample :
    (NewDownloadRecord ["dropboxaccesstoken"] "/documents/dropbox/foo.pdf"
        [("DropboxAccessToken", "")]).map
      (fun dr => (dr.HashedArgs, GetUniqueName dr)) =
        some ("", "dropbox/foo.pdf_") ∧
    ("dropbox/foo.pdf_" : String) ≠ "dropbox/foo.pdf" :=
  ⟨by decide, by decide⟩

/-- C8 amended: the unique key is the bare path exactly when the
argument map is empty; with a non-empty argument map it is the path,
one underscore, then the digest, even when the digest is empty. -/
theorem C8_thm (dr : DownloadRecord) :
    (GetUniqueName dr = dr.Path ↔ dr.Args = []) ∧
    (dr.Args ≠ [] → GetUniqueName dr = dr.Path ++ "_" ++ dr.HashedArgs) := by
  have hu : ("_" : String).length = 1 := rfl
  have hlen : (dr.Path ++ "_" ++ dr.HashedArgs).length =
      dr.Path.length + 1 + dr.HashedArgs.length := by
    rw [String.length_append, String.length_append, hu]
  constructor
  · constructor
    · intro h
      by_contra hne
      have hpos : 0 < dr.Args.length := List.length_pos.mpr hne
      unfold GetUniqueName at h
      rw [if_pos hpos] at h
      have hL := congrArg String.length h
      rw [hlen] at hL
      omega
    · intro h
      unfold GetUniqueName
      simp [h]
  · intro h
    unfold GetUniqueName
    rw [if_pos (List.length_pos.mpr h)]

/-- C8 witness: concrete application of the amended theorem to a record
with a non-empty argument map. -/
theorem C8_witness :
    GetUniqueName { Manager := DownloadManager.s3, Path := "p.x",
                    Args := [("a", "b")], HashedArgs := "h" } =
      "p.x" ++ "_" ++ "h" :=
  (C8_thm { Manager := DownloadManager.s3, Path := "p.x",
                Args := [("a", "b")], HashedArgs := "h" }).2 (by decide)

/-! Claim C9: the invalid path condition of NewDownloadRecord. -/

/-- C9 counterexample: the identifier documents slash a slash leaves
only one non-empty segment after stripping, yet construction succeeds,
because the source counts raw split parts, and the trailing empty part
passes the length check.  This refutes failing exactly when fewer than
two meaningful segments remain. -/
theorem C9_counterexample :
    ((goSplitSlash (goTrimPre "/documents/a/" "/documents/")).filter
        (fun s => s != "")).length < 2 ∧
    (NewDownloadRecord [] "/documents/a/" []).isSome = true :=
  ⟨by decide, by decide⟩

/-- C9 amended: construction fails exactly when the identifier, after
stripping the documents root, contains no slash at all or is the lone
slash; equivalently, success requires at least two slash-separated
parts, either of which may be empty. -/
theorem C9_thm (hashable : List String) (url : String) (args : ArgsMap) :
    NewDownloadRecord hashable url args = none ↔
      (Not ('/' ∈ (goTrimPre url "/documents/").data) ∨
       goTrimPre url "/documents/" = "/") := by
  have hjoin := goJoinSlash_goSplitSlash (goTrimPre url "/documents/")
  have hlen : (goSplitSlash (goTrimPre url "/documents/")).length =
      (splitOnChar '/' (goTrimPre url "/documents/").data).length := by
    unfold goSplitSlash
    rw [List.length_map]
  simp only [NewDownloadRecord]
  split_ifs with h1 h2
  · simp only [eq_self_iff_true, true_iff]
    left
    intro hmem
    have h2le := (two_le_splitOnChar_length_iff '/' _).mpr hmem
    omega
  · simp only [eq_self_iff_true, true_iff]
    rw [hjoin] at h2
    rcases h2 with h2 | h2
    · left
      rw [h2]
      simp
    · right
      exact h2
  · simp only [reduceCtorEq, false_iff]
    rintro (h | h)
    · have hlt : ¬ 2 ≤ (splitOnChar '/' (goTrimPre url "/documents/").data).length := by
        rw [two_le_splitOnChar_length_iff]
        exact h
      omega
    · exact h2 (Or.inr (hjoin.trans h))

/-! Claim C10: zero-length downloads and the bundled fetchers. -/

/-- C10 counterexample: the Dropbox downloader, handed a record with
the access token and the dropbox path root, a successful remote call
and a copy that wrote zero bytes, returns success: it never checks the
byte count, refuting the claim that every bundled fetcher rejects a
zero-byte retrieval. -/
theorem C10_counterexample :
    DropboxDownload { Manager := DownloadManager.dropbox, Path := "dropbox/foo.pdf",
                      Args := [("dropboxaccesstoken", "tok")], HashedArgs := "" }
      none (TransferResult.ok 0) = Except.ok () := rfl

/-- C10 amended: of the two bundled fetchers only the S3 downloader
rejects a zero-length result: with a well-formed bucket path, a
downloader in hand and a transfer that completed after writing fewer
than one byte, it returns the zero-length error. -/
theorem C10_thm (dr : DownloadRecord) (n : Int)
    (h2 : 2 ≤ (goSplitSlash dr.Path).length) (hn : n < 1) :
    S3RegionManagedDownloader.Download dr true (TransferResult.ok n) =
      Except.error "0 length file received from S3" := by
  unfold S3RegionManagedDownloader.Download
  rw [if_neg (Nat.not_lt.mpr h2)]
  simp [hn]

/-- C10 witness: concrete application of the amended theorem to a
zero-byte S3 transfer. -/
theorem C10_witness :
    S3RegionManagedDownloader.Download
      { Manager := DownloadManager.s3, Path := "bucket/f", Args := [],
        HashedArgs := "" }
      true (TransferResult.ok 0) =
      Except.error "0 length file received from S3" :=
  C10_thm
    { Manager := DownloadManager.s3, Path := "bucket/f", Args := [], HashedArgs := "" }
    0 (by decide) (by decide)

end Filecache
